import Mathlib

/-!
# Formal model of the photo-album builder (`album_main.go`)

This file embeds the album-build pipeline of `album_main.go` and proves the
frozen claims about it.

Conventions of the embedding:

* Go `time.Time` instants are modelled as `Nat` nanoseconds since Go's zero
  time (January 1, year 1, 00:00:00 UTC).  Go's zero `time.Time` is therefore
  `0`, `t.IsZero()` is `t = 0`, `a.After b` is `b < a`, `a.Before b` is
  `a < b`, and `time.Time.Compare` is the three-way comparison on `Nat`.
* File-system and image-library calls (`os.ReadFile`, `jpeg.Decode`,
  `resize.Thumbnail`, `exif.Decode`, ...) are external collaborators; their
  outcomes are abstracted as explicit success/failure data, and `os.Exit(1)` /
  `log.Fatalf` are modelled as `Except.error`.
* Per-image processing is deterministic for a fixed input file, so a directory
  tree is modelled with each directory carrying the list of processed `Image`
  records in the (arbitrary) order the fan-in channel delivered them.
-/


/-- `FutureTime` (line 53): `time.Unix(1<<63-62135596801, 999999999)`, the largest
representable `time.Time`, i.e. `2^63 - 1` whole seconds after the zero time plus
`999999999` nanoseconds. -/
def futureTime : Nat := (2 ^ 63 - 1) * 1000000000 + 999999999

/-- `PastTime` (line 57): the Go zero time. -/
def pastTime : Nat := 0

/-- `Thumbnail` (lines 62-66).  Field names are the Go field names in lowerCamel. -/
@[ext] structure Thumbnail where
  name : String
  width : Nat
  height : Nat
deriving DecidableEq

/-- `Image` (lines 68-72).  `dateTime = 0` is Go's zero `time.Time`, the value the
`DateTime` field keeps when EXIF extraction fails. -/
@[ext] structure Image where
  name : String
  thumbnail : Thumbnail
  dateTime : Nat
deriving DecidableEq

/-- `Album` (lines 74-79). -/
@[ext] structure Album where
  name : String
  numImages : Nat
  minTime : Nat
  maxTime : Nat
deriving DecidableEq

/-- `UnknownDateString` (line 23). -/
def UnknownDateString : String := "???"

/-- Models `fmt.Sprintf("%+v", t)` of line 83 — the Go library's full textual
rendering of an instant (external collaborator); we only rely on it being a
function of `t`. -/
def formatFullTime (t : Nat) : String := "time<" ++ toString t ++ ">"

/-- Nanoseconds in a day, for the calendar-date truncation of `t.Format(time.DateOnly)`. -/
def nanosPerDay : Nat := 86400 * 1000000000

/-- Models `t.Format(time.DateOnly)` of line 90 — the Go library's calendar-date
rendering (external collaborator): a function of the calendar day only. -/
def formatDateOnly (t : Nat) : String := "date<" ++ toString (t / nanosPerDay) ++ ">"

/-- `timeToString` (lines 81-86): the display string, `"???"` when the time is
the `FutureTime` sentinel or the zero time. -/
def timeToString (t : Nat) : String :=
  if t ≠ futureTime ∧ t ≠ 0 then formatFullTime t else "???"

/-- `dateToString` (lines 88-93): the calendar-date string, `UnknownDateString`
when the time is the `FutureTime` sentinel or the zero time. -/
def dateToString (t : Nat) : String :=
  if t ≠ futureTime ∧ t ≠ 0 then formatDateOnly t else UnknownDateString

/-- `isImageFile` (lines 115-117): `strings.HasSuffix` is the byte-suffix test,
modelled on the character list (file names here are ASCII byte-for-char). -/
def isImageFile (path : String) : Bool :=
  ("jpeg".toList.isSuffixOf path.toList) || ("jpg".toList.isSuffixOf path.toList)

/-- The guard of the "impossible" branch of `createThumbnail` (lines 131-135):
`strings.LastIndexByte(imageName, '.') == -1` holds exactly when the name
contains no dot (file names here are ASCII byte-for-char), and then
`log.Fatalf` aborts the run. -/
def createThumbnailNoExtension (imageName : String) : Bool :=
  !(imageName.toList.contains '.')

/-- `dateStringToHeaderText` (lines 198-203). -/
def dateStringToHeaderText (date : String) : String :=
  if date ≠ UnknownDateString then date else "Unknown Date"

/-- `dateStringToId` (lines 205-210). -/
def dateStringToId (date : String) : String :=
  if date ≠ UnknownDateString then date else "unknown-date"

/-- Outcomes of the external calls made by `processImage` for a single image:
whether `os.ReadFile` succeeds, what `readEXIFDateTime` returns, what
`createThumbnail` returns, and whether the `os.WriteFile` copy succeeds. -/
structure ImageEnv where
  readOk : Bool
  exifResult : Except String Nat
  thumbResult : Except String Thumbnail
  copyOk : Bool

/-- `processImage` (lines 156-182), with the I/O calls abstracted by `env`.
The first component is the record sent on the channel, or `Except.error` where
the Go code calls `os.Exit(1)`; the second component collects the `log.Printf`
warning of the non-fatal EXIF branch.  `result := Image{Name: imageName}`
leaves `DateTime` at the zero time (`0`) unless EXIF extraction succeeds. -/
def processImage (env : ImageEnv) (imageName : String) : Except String Image × List String :=
  if env.readOk then
    let dtLogs : Nat × List String :=
      match env.exifResult with
      | Except.ok t => (t, [])
      | Except.error e => (0, ["Problem reading EXIF date-time for " ++ imageName ++ ": " ++ e])
    match env.thumbResult with
    | Except.ok th =>
        if env.copyOk then
          (Except.ok { name := imageName, thumbnail := th, dateTime := dtLogs.1 }, dtLogs.2)
        else (Except.error "Couldn't create copy", dtLogs.2)
    | Except.error _ => (Except.error "Couldn't create thumbnail", dtLogs.2)
  else (Except.error "Couldn't read image", [])

/-- Go's three-way comparison (`time.Time.Compare`, `cmp.Compare`) on a linear
order: `lt` if smaller, `eq` if equal, `gt` otherwise. -/
def cmpV {α : Type} [LinearOrder α] (a b : α) : Ordering :=
  if a < b then Ordering.lt else if a = b then Ordering.eq else Ordering.gt

/-- The image comparator passed to `slices.SortFunc` at lines 306-311:
capture time first, name as tie-break. -/
def imageCmp (a b : Image) : Ordering :=
  let n := cmpV a.dateTime b.dateTime
  if n ≠ Ordering.eq then n else cmpV a.name b.name

/-- `a` sorts no later than `b` under `imageCmp`. -/
def imageLE (a b : Image) : Prop := imageCmp a b ≠ Ordering.gt

instance : DecidableRel imageLE := fun a b => by
  unfold imageLE; infer_instance

/-- The subalbum comparator passed to `slices.SortFunc` at lines 312-317:
min time first, name as tie-break. -/
def albumCmp (a b : Album) : Ordering :=
  let n := cmpV a.minTime b.minTime
  if n ≠ Ordering.eq then n else cmpV a.name b.name

/-- `a` sorts no later than `b` under `albumCmp`. -/
def albumLE (a b : Album) : Prop := albumCmp a b ≠ Ordering.gt

instance : DecidableRel albumLE := fun a b => by
  unfold albumLE; infer_instance

/-- The in-place `slices.SortFunc(images, ...)` of line 306.  `slices.SortFunc`
produces some permutation of its input that is sorted under the comparator;
we model it with `List.mergeSort`, which agrees with it exactly whenever the
comparator is antisymmetric on the list (in particular when image names are
distinct), and which produces a sorted permutation in any case. -/
def sortImages (l : List Image) : List Image :=
  l.mergeSort (fun a b => decide (imageLE a b))

/-- The in-place `slices.SortFunc(subAlbums, ...)` of line 312, modelled like
`sortImages`. -/
def sortAlbums (l : List Album) : List Album :=
  l.mergeSort (fun a b => decide (albumLE a b))

/-- The subdirectory branch of the entry loop of `createAlbum` (lines 271-282):
given the running `(result, subAlbums)` pair, merge one recursively built
subalbum — skipped entirely unless `subAlbum.NumImages > 0`. -/
def mergeSubAlbum (acc : Album × List Album) (sub : Album) : Album × List Album :=
  if 0 < sub.numImages then
    ({ acc.1 with
        numImages := acc.1.numImages + sub.numImages
        minTime := if sub.minTime < acc.1.minTime then sub.minTime else acc.1.minTime
        maxTime := if acc.1.maxTime < sub.maxTime then sub.maxTime else acc.1.maxTime },
      acc.2 ++ [sub])
  else acc

/-- The image loop of `createAlbum` (lines 294-304): images whose `DateTime`
is the zero time are skipped (`continue`); otherwise the running bounds widen. -/
def mergeImageTime (result : Album) (image : Image) : Album :=
  if image.dateTime = 0 then result
  else
    { result with
        minTime := if image.dateTime < result.minTime then image.dateTime else result.minTime
        maxTime := if result.maxTime < image.dateTime then image.dateTime else result.maxTime }

/-- One input directory: its base name, the processed `Image` records of its
direct image files in scheduler delivery order (per-image processing is
deterministic, only the fan-in order varies between runs), and its
subdirectories in `os.ReadDir` order. -/
inductive DirTree where
  | node (name : String) (images : List Image) (subdirs : List DirTree)

/-- The base name of the directory. -/
def DirTree.dirName : DirTree → String
  | .node n _ _ => n

mutual

/-- `createAlbum` (lines 260-321) with file-system effects elided: returns the
`Album` the Go function returns, together with the sorted subalbum list and the
sorted image list handed to `writeHtml` (the order rendered into `index.html`). -/
def createAlbum : DirTree → Album × List Album × List Image
  | .node dname images subdirs =>
    let init : Album := { name := dname, numImages := 0, minTime := futureTime, maxTime := pastTime }
    let merged := (createSubAlbums subdirs).foldl mergeSubAlbum (init, [])
    let withImages := images.foldl mergeImageTime merged.1
    let result := { withImages with numImages := withImages.numImages + images.length }
    (result, sortAlbums merged.2, sortImages images)

/-- The recursive `createAlbum` calls of the entry loop, in entry order. -/
def createSubAlbums : List DirTree → List Album
  | [] => []
  | t :: ts => (createAlbum t).1 :: createSubAlbums ts

end

mutual

/-- The number of image files anywhere in the subtree. -/
def countImages : DirTree → Nat
  | .node _ images subdirs => images.length + countImagesList subdirs

/-- Sum of `countImages` over a list of subtrees. -/
def countImagesList : List DirTree → Nat
  | [] => 0
  | t :: ts => countImages t + countImagesList ts

end

mutual

/-- The present (non-zero) capture times of all images in the subtree, direct
images first. -/
def presentTimes : DirTree → List Nat
  | .node _ images subdirs =>
    ((images.map Image.dateTime).filter (fun t => t ≠ 0)) ++ presentTimesList subdirs

/-- Concatenation of `presentTimes` over a list of subtrees. -/
def presentTimesList : List DirTree → List Nat
  | [] => []
  | t :: ts => presentTimes t ++ presentTimesList ts

end

mutual

/-- The data rendered into every `index.html` of the subtree (children first,
as the recursion unwinds): for each directory, the `Album` header data, the
sorted subalbum entries, and the sorted image entries. -/
def renderDocs : DirTree → List (Album × List Album × List Image)
  | .node dname images subdirs =>
    renderDocsList subdirs ++ [createAlbum (.node dname images subdirs)]

/-- Concatenation of `renderDocs` over a list of subtrees, in entry order. -/
def renderDocsList : List DirTree → List (Album × List Album × List Image)
  | [] => []
  | t :: ts => renderDocs t ++ renderDocsList ts

end

/-- All image names in the list are pairwise distinct (file names within one
directory are distinct). -/
def distinctNames : List Image → Bool
  | [] => true
  | a :: t => (t.all (fun b => a.name != b.name)) && distinctNames t

mutual

/-- Every directory of the tree has pairwise-distinct direct image names. -/
def namesOk : DirTree → Bool
  | .node _ images subdirs => distinctNames images && namesOkList subdirs

/-- `namesOk` over a list of subtrees. -/
def namesOkList : List DirTree → Bool
  | [] => true
  | t :: ts => namesOk t && namesOkList ts

end

mutual

/-- Two runs of the build on the same input tree: same directories, same
processed image records, but the fan-in channel may deliver each directory's
image records in a different order. -/
def schedEquiv : DirTree → DirTree → Prop
  | .node n1 i1 s1, .node n2 i2 s2 => n1 = n2 ∧ i1.Perm i2 ∧ schedEquivList s1 s2

/-- Pointwise `schedEquiv` on subdirectory lists. -/
def schedEquivList : List DirTree → List DirTree → Prop
  | [], [] => True
  | t1 :: ts1, t2 :: ts2 => schedEquiv t1 t2 ∧ schedEquivList ts1 ts2
  | _ :: _, [] => False
  | [], _ :: _ => False

end

/-- The observable state of the output file tree: which directories exist.
Paths are segment lists. -/
structure FS where
  dirs : List (List String)
deriving DecidableEq

/-- `os.MkdirAll(outputDir, 0750)` (line 288): creates the directory and all
its ancestors (and never fails in this model). -/
def mkdirAll (p : List String) (fs : FS) : FS :=
  { dirs := ((List.range (p.length + 1)).map (fun k => p.take k)) ++ fs.dirs }

mutual

/-- `createAlbum` (lines 260-321) again, now tracking which output directories
exist, to model the file writes: `os.MkdirAll` runs only when the directory has
direct image files (line 287), while `writeHtml` (line 319) always runs, and
its `os.WriteFile` of `outputDir/index.html` (lines 251-255) fails — `fmt.Printf`
plus `os.Exit(1)`, modelled as `Except.error` — whenever `outputDir` does not
exist.  The thumbnail and copy writes of `processImages` also target
`outputDir`, but they only happen when there are direct images, in which case
`outputDir` was just created; their other failure modes are modelled in
`processImage` and elided here. -/
def createAlbumRun : DirTree → List String → FS → Except String (Album × FS)
  | .node dname images subdirs, outPath, fs =>
    match createAlbumRunList subdirs outPath fs with
    | Except.error e => Except.error e
    | Except.ok (subResults, fs1) =>
      let init : Album := { name := dname, numImages := 0, minTime := futureTime, maxTime := pastTime }
      let merged := subResults.foldl mergeSubAlbum (init, [])
      let fs2 := if images.length > 0 then mkdirAll outPath fs1 else fs1
      let withImages := images.foldl mergeImageTime merged.1
      let result := { withImages with numImages := withImages.numImages + images.length }
      if outPath ∈ fs2.dirs then Except.ok (result, fs2)
      else Except.error "Couldn't write index.html"

/-- The subdirectory recursions of the entry loop, in entry order, threading
the file-system state; `os.Exit(1)` anywhere aborts the whole run. -/
def createAlbumRunList : List DirTree → List String → FS → Except String (List Album × FS)
  | [], _, fs => Except.ok ([], fs)
  | t :: ts, outPath, fs =>
    match createAlbumRun t (outPath ++ [t.dirName]) fs with
    | Except.error e => Except.error e
    | Except.ok (a, fs1) =>
      match createAlbumRunList ts outPath fs1 with
      | Except.error e => Except.error e
      | Except.ok (as, fs2) => Except.ok (a :: as, fs2)

end

theorem cmpV_eq_eq {α : Type} [LinearOrder α] {a b : α} :
    cmpV a b = Ordering.eq ↔ a = b := by
  unfold cmpV
  rcases lt_trichotomy a b with h | h | h
  · simp [h, ne_of_lt h]
  · simp [h, lt_irrefl]
  · simp [lt_asymm h, ne_of_gt h]

theorem cmpV_ne_gt {α : Type} [LinearOrder α] {a b : α} :
    cmpV a b ≠ Ordering.gt ↔ a ≤ b := by
  unfold cmpV
  rcases lt_trichotomy a b with h | h | h
  · simp [h, le_of_lt h]
  · simp [h, lt_irrefl]
  · simp [lt_asymm h, ne_of_gt h, not_le_of_gt h]

theorem imageLE_iff {a b : Image} :
    imageLE a b ↔
      a.dateTime < b.dateTime ∨ (a.dateTime = b.dateTime ∧ a.name ≤ b.name) := by
  rcases lt_trichotomy a.dateTime b.dateTime with h | h | h
  · have hc : imageCmp a b = Ordering.lt := by
      unfold imageCmp cmpV; simp [h]
    unfold imageLE
    rw [hc]
    simp [h]
  · have hc : imageCmp a b = cmpV a.name b.name := by
      unfold imageCmp
      rw [cmpV_eq_eq.mpr h]
      simp
    unfold imageLE
    rw [hc, cmpV_ne_gt]
    constructor
    · intro hn
      exact Or.inr ⟨h, hn⟩
    · rintro (hlt | ⟨_, hn⟩)
      · exact absurd hlt (h ▸ lt_irrefl _)
      · exact hn
  · have hc : imageCmp a b = Ordering.gt := by
      unfold imageCmp cmpV
      simp [lt_asymm h, ne_of_gt h]
    unfold imageLE
    rw [hc]
    simp [lt_asymm h, ne_of_gt h]

theorem imageLE_total (a b : Image) : imageLE a b ∨ imageLE b a := by
  rw [imageLE_iff, imageLE_iff]
  rcases lt_trichotomy a.dateTime b.dateTime with h | h | h
  · exact Or.inl (Or.inl h)
  · rcases le_total a.name b.name with hn | hn
    · exact Or.inl (Or.inr ⟨h, hn⟩)
    · exact Or.inr (Or.inr ⟨h.symm, hn⟩)
  · exact Or.inr (Or.inl h)

theorem imageLE_trans {a b c : Image} (h1 : imageLE a b) (h2 : imageLE b c) :
    imageLE a c := by
  rw [imageLE_iff] at h1 h2 ⊢
  rcases h1 with h1 | ⟨h1e, h1n⟩
  · rcases h2 with h2 | ⟨h2e, _⟩
    · exact Or.inl (lt_trans h1 h2)
    · exact Or.inl (h2e ▸ h1)
  · rcases h2 with h2 | ⟨h2e, h2n⟩
    · exact Or.inl (h1e ▸ h2)
    · exact Or.inr ⟨h1e.trans h2e, le_trans h1n h2n⟩

theorem imageLE_keys {a b : Image} (h1 : imageLE a b) (h2 : imageLE b a) :
    a.dateTime = b.dateTime ∧ a.name = b.name := by
  rw [imageLE_iff] at h1 h2
  rcases h1 with h1 | ⟨h1e, h1n⟩
  · rcases h2 with h2 | ⟨h2e, _⟩
    · exact absurd h2 (lt_asymm h1)
    · exact absurd h2e.symm (ne_of_lt h1)
  · rcases h2 with h2 | ⟨_, h2n⟩
    · exact absurd h2 (h1e ▸ lt_irrefl _)
    · exact ⟨h1e, le_antisymm h1n h2n⟩

theorem albumLE_iff {a b : Album} :
    albumLE a b ↔
      a.minTime < b.minTime ∨ (a.minTime = b.minTime ∧ a.name ≤ b.name) := by
  rcases lt_trichotomy a.minTime b.minTime with h | h | h
  · have hc : albumCmp a b = Ordering.lt := by
      unfold albumCmp cmpV; simp [h]
    unfold albumLE
    rw [hc]
    simp [h]
  · have hc : albumCmp a b = cmpV a.name b.name := by
      unfold albumCmp
      rw [cmpV_eq_eq.mpr h]
      simp
    unfold albumLE
    rw [hc, cmpV_ne_gt]
    constructor
    · intro hn
      exact Or.inr ⟨h, hn⟩
    · rintro (hlt | ⟨_, hn⟩)
      · exact absurd hlt (h ▸ lt_irrefl _)
      · exact hn
  · have hc : albumCmp a b = Ordering.gt := by
      unfold albumCmp cmpV
      simp [lt_asymm h, ne_of_gt h]
    unfold albumLE
    rw [hc]
    simp [lt_asymm h, ne_of_gt h]

theorem albumLE_total (a b : Album) : albumLE a b ∨ albumLE b a := by
  rw [albumLE_iff, albumLE_iff]
  rcases lt_trichotomy a.minTime b.minTime with h | h | h
  · exact Or.inl (Or.inl h)
  · rcases le_total a.name b.name with hn | hn
    · exact Or.inl (Or.inr ⟨h, hn⟩)
    · exact Or.inr (Or.inr ⟨h.symm, hn⟩)
  · exact Or.inr (Or.inl h)

theorem albumLE_trans {a b c : Album} (h1 : albumLE a b) (h2 : albumLE b c) :
    albumLE a c := by
  rw [albumLE_iff] at h1 h2 ⊢
  rcases h1 with h1 | ⟨h1e, h1n⟩
  · rcases h2 with h2 | ⟨h2e, _⟩
    · exact Or.inl (lt_trans h1 h2)
    · exact Or.inl (h2e ▸ h1)
  · rcases h2 with h2 | ⟨h2e, h2n⟩
    · exact Or.inl (h1e ▸ h2)
    · exact Or.inr ⟨h1e.trans h2e, le_trans h1n h2n⟩

theorem sortImages_perm (l : List Image) : (sortImages l).Perm l :=
  List.mergeSort_perm l _

theorem sortAlbums_perm (l : List Album) : (sortAlbums l).Perm l :=
  List.mergeSort_perm l _

theorem sortImages_sorted (l : List Image) : (sortImages l).Pairwise imageLE := by
  have h := @List.sorted_mergeSort Image (fun a b => decide (imageLE a b))
    (fun a b c hab hbc => by
      simp only [decide_eq_true_eq] at *
      exact imageLE_trans hab hbc)
    (fun a b => by
      simp only [Bool.or_eq_true, decide_eq_true_eq]
      exact imageLE_total a b) l
  exact h.imp (fun hab => by simpa using hab)

theorem sortAlbums_sorted (l : List Album) : (sortAlbums l).Pairwise albumLE := by
  have h := @List.sorted_mergeSort Album (fun a b => decide (albumLE a b))
    (fun a b c hab hbc => by
      simp only [decide_eq_true_eq] at *
      exact albumLE_trans hab hbc)
    (fun a b => by
      simp only [Bool.or_eq_true, decide_eq_true_eq]
      exact albumLE_total a b) l
  exact h.imp (fun hab => by simpa using hab)

theorem sorted_perm_eq : ∀ {l1 l2 : List Image}, l1.Perm l2 →
    l1.Pairwise imageLE → l2.Pairwise imageLE →
    (∀ a ∈ l1, ∀ b ∈ l1, a.dateTime = b.dateTime → a.name = b.name → a = b) →
    l1 = l2
  | [], l2, p, _, _, _ => p.nil_eq
  | a :: t1, [], p, _, _, _ => absurd p.symm (by simp)
  | a :: t1, b :: t2, p, s1, s2, inj => by
    obtain ⟨hb1, s1t⟩ := List.pairwise_cons.mp s1
    obtain ⟨hb2, s2t⟩ := List.pairwise_cons.mp s2
    have hab : a = b := by
      have ha2 : a ∈ b :: t2 := p.subset (List.mem_cons_self a t1)
      have hb1m : b ∈ a :: t1 := p.symm.subset (List.mem_cons_self b t2)
      rcases List.mem_cons.mp ha2 with h | ha2t
      · exact h
      rcases List.mem_cons.mp hb1m with h | hb1t
      · exact h.symm
      have hk := imageLE_keys (hb1 b hb1t) (hb2 a ha2t)
      exact inj a (List.mem_cons_self a t1) b (List.mem_cons_of_mem a hb1t) hk.1 hk.2
    subst hab
    have injt : ∀ x ∈ t1, ∀ y ∈ t1, x.dateTime = y.dateTime → x.name = y.name → x = y :=
      fun x hx y hy => inj x (List.mem_cons_of_mem a hx) y (List.mem_cons_of_mem a hy)
    rw [sorted_perm_eq p.cons_inv s1t s2t injt]

theorem distinctNames_inj : ∀ {l : List Image}, distinctNames l = true →
    ∀ a ∈ l, ∀ b ∈ l, a.name = b.name → a = b
  | [], _ => by simp
  | x :: t, h => by
    intro a ha b hb hn
    unfold distinctNames at h
    simp only [Bool.and_eq_true, List.all_eq_true, bne_iff_ne, ne_eq] at h
    obtain ⟨hall, ht⟩ := h
    rcases List.mem_cons.mp ha with rfl | hat
    · rcases List.mem_cons.mp hb with rfl | hbt
      · rfl
      · exact absurd hn (hall b hbt)
    · rcases List.mem_cons.mp hb with rfl | hbt
      · exact absurd hn.symm (hall a hat)
      · exact distinctNames_inj ht a hat b hbt hn

theorem sortImages_eq_of_perm {l1 l2 : List Image} (p : l1.Perm l2)
    (h : distinctNames l1 = true) : sortImages l1 = sortImages l2 :=
  sorted_perm_eq
    ((sortImages_perm l1).trans (p.trans (sortImages_perm l2).symm))
    (sortImages_sorted l1) (sortImages_sorted l2)
    (fun a ha b hb _ hnm => distinctNames_inj h a ((sortImages_perm l1).subset ha)
      b ((sortImages_perm l1).subset hb) hnm)

theorem sortImages_eq_of_sorted {l l' : List Image} (p : l.Perm l')
    (s : l'.Pairwise imageLE) (h : distinctNames l = true) : sortImages l = l' :=
  sorted_perm_eq ((sortImages_perm l).trans p) (sortImages_sorted l) s
    (fun a ha b hb _ hnm => distinctNames_inj h a ((sortImages_perm l).subset ha)
      b ((sortImages_perm l).subset hb) hnm)

/-- The minimum of a list of times as the aggregation computes it: fold of
`min` with the `FutureTime` sentinel as base. -/
def minT (l : List Nat) : Nat := l.foldr min futureTime

/-- The maximum of a list of times as the aggregation computes it: fold of
`max` with the zero time as base. -/
def maxT (l : List Nat) : Nat := l.foldr max 0

theorem minT_nil : minT [] = futureTime := rfl

theorem minT_cons (x : Nat) (l : List Nat) : minT (x :: l) = min x (minT l) := rfl

theorem maxT_nil : maxT [] = 0 := rfl

theorem maxT_cons (x : Nat) (l : List Nat) : maxT (x :: l) = max x (maxT l) := rfl

theorem minT_le (l : List Nat) : minT l ≤ futureTime := by
  induction l with
  | nil => exact le_refl _
  | cons x l ih => rw [minT_cons]; omega

theorem minT_append (l1 l2 : List Nat) : minT (l1 ++ l2) = min (minT l1) (minT l2) := by
  induction l1 with
  | nil =>
    have h := minT_le l2
    simp only [List.nil_append, minT_nil]
    omega
  | cons x l1 ih =>
    rw [List.cons_append, minT_cons, minT_cons, ih]
    omega

theorem maxT_append (l1 l2 : List Nat) : maxT (l1 ++ l2) = max (maxT l1) (maxT l2) := by
  induction l1 with
  | nil => simp only [List.nil_append, maxT_nil]; omega
  | cons x l1 ih =>
    rw [List.cons_append, maxT_cons, maxT_cons, ih]
    omega

theorem minT_le_of_mem : ∀ {l : List Nat} {x : Nat}, x ∈ l → minT l ≤ x
  | y :: l, x, h => by
    rw [minT_cons]
    rcases List.mem_cons.mp h with rfl | h
    · omega
    · have := minT_le_of_mem h
      omega

theorem le_maxT_of_mem : ∀ {l : List Nat} {x : Nat}, x ∈ l → x ≤ maxT l
  | y :: l, x, h => by
    rw [maxT_cons]
    rcases List.mem_cons.mp h with rfl | h
    · omega
    · have := le_maxT_of_mem h
      omega

theorem minT_mem_of_ne : ∀ {l : List Nat}, minT l ≠ futureTime → minT l ∈ l
  | [], h => absurd minT_nil h
  | x :: l, h => by
    rw [minT_cons] at h ⊢
    rcases le_total x (minT l) with hle | hle
    · have hx : min x (minT l) = x := by omega
      rw [hx]
      exact List.mem_cons_self x l
    · have hm : min x (minT l) = minT l := by omega
      rw [hm] at h ⊢
      exact List.mem_cons_of_mem x (minT_mem_of_ne h)

theorem maxT_mem_of_ne : ∀ {l : List Nat}, maxT l ≠ 0 → maxT l ∈ l
  | [], h => absurd maxT_nil h
  | x :: l, h => by
    rw [maxT_cons] at h ⊢
    rcases le_total x (maxT l) with hle | hle
    · have hm : max x (maxT l) = maxT l := by omega
      rw [hm] at h ⊢
      exact List.mem_cons_of_mem x (maxT_mem_of_ne h)
    · have hx : max x (maxT l) = x := by omega
      rw [hx]
      exact List.mem_cons_self x l

theorem foldr_min_swap (L : List Nat) (t b : Nat) :
    L.foldr min (min t b) = min t (L.foldr min b) := by
  induction L with
  | nil => rfl
  | cons x L ih => simp only [List.foldr_cons, ih]; omega

theorem foldr_max_swap (L : List Nat) (t b : Nat) :
    L.foldr max (max t b) = max t (L.foldr max b) := by
  induction L with
  | nil => rfl
  | cons x L ih => simp only [List.foldr_cons, ih]; omega

theorem foldr_min_eq_minT (L : List Nat) {b : Nat} (h : b ≤ futureTime) :
    L.foldr min b = min (minT L) b := by
  induction L with
  | nil => rw [minT_nil]; simp only [List.foldr_nil]; omega
  | cons x L ih => rw [List.foldr_cons, ih, minT_cons]; omega

theorem foldr_max_eq_maxT (L : List Nat) (b : Nat) :
    L.foldr max b = max (maxT L) b := by
  induction L with
  | nil => rw [maxT_nil]; simp only [List.foldr_nil]; omega
  | cons x L ih => rw [List.foldr_cons, ih, maxT_cons]; omega

/-- The present capture times of a list of processed images (the times the
image loop of `createAlbum` does not skip). -/
def ptimes (imgs : List Image) : List Nat :=
  (imgs.map Image.dateTime).filter (fun t => t ≠ 0)

theorem presentTimes_node (n : String) (imgs : List Image) (subs : List DirTree) :
    presentTimes (.node n imgs subs) = ptimes imgs ++ presentTimesList subs := by
  rw [presentTimes, ptimes]

theorem mergeImageTime_name (a : Album) (img : Image) :
    (mergeImageTime a img).name = a.name := by
  unfold mergeImageTime; split <;> rfl

theorem mergeImageTime_numImages (a : Album) (img : Image) :
    (mergeImageTime a img).numImages = a.numImages := by
  unfold mergeImageTime; split <;> rfl

theorem mergeImageTime_zero {a : Album} {img : Image} (h : img.dateTime = 0) :
    mergeImageTime a img = a := by
  unfold mergeImageTime; rw [if_pos h]

theorem mergeImageTime_minTime {a : Album} {img : Image} (h : img.dateTime ≠ 0) :
    (mergeImageTime a img).minTime = min a.minTime img.dateTime := by
  unfold mergeImageTime
  rw [if_neg h]
  show (if img.dateTime < a.minTime then img.dateTime else a.minTime) = _
  split <;> omega

theorem mergeImageTime_maxTime {a : Album} {img : Image} (h : img.dateTime ≠ 0) :
    (mergeImageTime a img).maxTime = max a.maxTime img.dateTime := by
  unfold mergeImageTime
  rw [if_neg h]
  show (if a.maxTime < img.dateTime then img.dateTime else a.maxTime) = _
  split <;> omega

theorem foldl_mergeImageTime : ∀ (imgs : List Image) (a : Album),
    (imgs.foldl mergeImageTime a).name = a.name ∧
    (imgs.foldl mergeImageTime a).numImages = a.numImages ∧
    (imgs.foldl mergeImageTime a).minTime = (ptimes imgs).foldr min a.minTime ∧
    (imgs.foldl mergeImageTime a).maxTime = (ptimes imgs).foldr max a.maxTime
  | [], a => by
    refine ⟨rfl, rfl, ?_, ?_⟩ <;> simp [ptimes]
  | img :: imgs, a => by
    rw [List.foldl_cons]
    by_cases h : img.dateTime = 0
    · have hp : ptimes (img :: imgs) = ptimes imgs := by simp [ptimes, h]
      rw [mergeImageTime_zero h, hp]
      exact foldl_mergeImageTime imgs a
    · have hp : ptimes (img :: imgs) = img.dateTime :: ptimes imgs := by
        simp [ptimes, h]
      obtain ⟨ihn, ihc, ihmin, ihmax⟩ := foldl_mergeImageTime imgs (mergeImageTime a img)
      refine ⟨?_, ?_, ?_, ?_⟩
      · rw [ihn, mergeImageTime_name]
      · rw [ihc, mergeImageTime_numImages]
      · rw [ihmin, mergeImageTime_minTime h, hp, List.foldr_cons,
          min_comm a.minTime, foldr_min_swap]
      · rw [ihmax, mergeImageTime_maxTime h, hp, List.foldr_cons,
          max_comm a.maxTime, foldr_max_swap]

/-- The subalbums the entry loop actually keeps: those with at least one image. -/
def qualifying (ss : List Album) : List Album :=
  ss.filter (fun s => decide (0 < s.numImages))

theorem mergeSubAlbum_skip {acc : Album × List Album} {sub : Album}
    (h : ¬ 0 < sub.numImages) : mergeSubAlbum acc sub = acc := by
  unfold mergeSubAlbum; rw [if_neg h]

theorem mergeSubAlbum_fields (acc : Album × List Album) (sub : Album)
    (h : 0 < sub.numImages) :
    (mergeSubAlbum acc sub).1.name = acc.1.name ∧
    (mergeSubAlbum acc sub).1.numImages = acc.1.numImages + sub.numImages ∧
    (mergeSubAlbum acc sub).1.minTime = min acc.1.minTime sub.minTime ∧
    (mergeSubAlbum acc sub).1.maxTime = max acc.1.maxTime sub.maxTime ∧
    (mergeSubAlbum acc sub).2 = acc.2 ++ [sub] := by
  unfold mergeSubAlbum
  rw [if_pos h]
  refine ⟨rfl, rfl, ?_, ?_, rfl⟩
  · show (if sub.minTime < acc.1.minTime then sub.minTime else acc.1.minTime) = _
    split <;> omega
  · show (if acc.1.maxTime < sub.maxTime then sub.maxTime else acc.1.maxTime) = _
    split <;> omega

theorem foldl_mergeSubAlbum : ∀ (ss : List Album) (acc : Album × List Album),
    (ss.foldl mergeSubAlbum acc).1.name = acc.1.name ∧
    (ss.foldl mergeSubAlbum acc).1.numImages
      = acc.1.numImages + ((qualifying ss).map Album.numImages).sum ∧
    (ss.foldl mergeSubAlbum acc).1.minTime
      = ((qualifying ss).map Album.minTime).foldr min acc.1.minTime ∧
    (ss.foldl mergeSubAlbum acc).1.maxTime
      = ((qualifying ss).map Album.maxTime).foldr max acc.1.maxTime ∧
    (ss.foldl mergeSubAlbum acc).2 = acc.2 ++ qualifying ss
  | [], acc => by
    refine ⟨rfl, ?_, rfl, rfl, ?_⟩ <;> simp [qualifying]
  | s :: ss, acc => by
    rw [List.foldl_cons]
    by_cases h : 0 < s.numImages
    · have hq : qualifying (s :: ss) = s :: qualifying ss := by
        simp [qualifying, h]
      obtain ⟨f1, f2, f3, f4, f5⟩ := mergeSubAlbum_fields acc s h
      obtain ⟨ih1, ih2, ih3, ih4, ih5⟩ := foldl_mergeSubAlbum ss (mergeSubAlbum acc s)
      refine ⟨?_, ?_, ?_, ?_, ?_⟩
      · rw [ih1, f1]
      · rw [ih2, f2, hq, List.map_cons, List.sum_cons]
        omega
      · rw [ih3, f3, hq, List.map_cons, List.foldr_cons,
          min_comm acc.1.minTime, foldr_min_swap]
      · rw [ih4, f4, hq, List.map_cons, List.foldr_cons,
          max_comm acc.1.maxTime, foldr_max_swap]
      · rw [ih5, f5, hq, List.append_assoc, List.singleton_append]
    · have hq : qualifying (s :: ss) = qualifying ss := by
        simp [qualifying, h]
      rw [mergeSubAlbum_skip h, hq]
      exact foldl_mergeSubAlbum ss acc

theorem presentTimesList_nil : presentTimesList [] = [] := rfl

theorem presentTimesList_cons (t : DirTree) (ts : List DirTree) :
    presentTimesList (t :: ts) = presentTimes t ++ presentTimesList ts := rfl

theorem countImages_node (n : String) (imgs : List Image) (subs : List DirTree) :
    countImages (.node n imgs subs) = imgs.length + countImagesList subs := rfl

theorem countImagesList_cons (t : DirTree) (ts : List DirTree) :
    countImagesList (t :: ts) = countImages t + countImagesList ts := rfl

theorem createSubAlbums_cons (t : DirTree) (ts : List DirTree) :
    createSubAlbums (t :: ts) = (createAlbum t).1 :: createSubAlbums ts := rfl

mutual

theorem presentTimes_nil_of_count : ∀ t : DirTree,
    countImages t = 0 → presentTimes t = []
  | .node n imgs subs => by
    intro h
    rw [countImages_node] at h
    have h1 : imgs = [] := List.eq_nil_of_length_eq_zero (by omega)
    rw [presentTimes_node, presentTimesList_nil_of_count subs (by omega), h1]
    simp [ptimes]

theorem presentTimesList_nil_of_count : ∀ ts : List DirTree,
    countImagesList ts = 0 → presentTimesList ts = []
  | [] => fun _ => rfl
  | t :: ts => by
    intro h
    rw [countImagesList_cons] at h
    rw [presentTimesList_cons, presentTimes_nil_of_count t (by omega),
      presentTimesList_nil_of_count ts (by omega)]
    rfl

end

theorem createAlbum_imgList (dname : String) (imgs : List Image) (subs : List DirTree) :
    (createAlbum (.node dname imgs subs)).2.2 = sortImages imgs := rfl

theorem createAlbum_subList (dname : String) (imgs : List Image) (subs : List DirTree) :
    (createAlbum (.node dname imgs subs)).2.1 =
      sortAlbums ((createSubAlbums subs).foldl mergeSubAlbum
        (⟨dname, 0, futureTime, pastTime⟩, [])).2 := rfl

theorem merged_spec (dname : String) (subs : List DirTree) :
    ((createSubAlbums subs).foldl mergeSubAlbum
        (⟨dname, 0, futureTime, pastTime⟩, [])).1.name = dname ∧
    ((createSubAlbums subs).foldl mergeSubAlbum
        (⟨dname, 0, futureTime, pastTime⟩, [])).1.numImages
      = ((qualifying (createSubAlbums subs)).map Album.numImages).sum ∧
    ((createSubAlbums subs).foldl mergeSubAlbum
        (⟨dname, 0, futureTime, pastTime⟩, [])).1.minTime
      = ((qualifying (createSubAlbums subs)).map Album.minTime).foldr min futureTime ∧
    ((createSubAlbums subs).foldl mergeSubAlbum
        (⟨dname, 0, futureTime, pastTime⟩, [])).1.maxTime
      = ((qualifying (createSubAlbums subs)).map Album.maxTime).foldr max 0 ∧
    ((createSubAlbums subs).foldl mergeSubAlbum
        (⟨dname, 0, futureTime, pastTime⟩, [])).2 = qualifying (createSubAlbums subs) := by
  obtain ⟨g1, g2, g3, g4, g5⟩ := foldl_mergeSubAlbum (createSubAlbums subs)
    (⟨dname, 0, futureTime, pastTime⟩, [])
  refine ⟨g1, ?_, g3, g4, ?_⟩
  · simpa using g2
  · simpa using g5

mutual

theorem createAlbum_spec : ∀ t : DirTree,
    (createAlbum t).1.name = t.dirName ∧
    (createAlbum t).1.numImages = countImages t ∧
    (createAlbum t).1.minTime = minT (presentTimes t) ∧
    (createAlbum t).1.maxTime = maxT (presentTimes t)
  | .node dname imgs subs => by
    obtain ⟨sMin, sMax, sSum⟩ := createSubAlbums_spec subs
    obtain ⟨g1, g2, g3, g4, g5⟩ := merged_spec dname subs
    obtain ⟨h1, h2, h3, h4⟩ := foldl_mergeImageTime imgs
      ((createSubAlbums subs).foldl mergeSubAlbum (⟨dname, 0, futureTime, pastTime⟩, [])).1
    refine ⟨?_, ?_, ?_, ?_⟩
    · show (imgs.foldl mergeImageTime _).name = dname
      rw [h1, g1]
    · show (imgs.foldl mergeImageTime _).numImages + imgs.length = _
      rw [h2, g2, sSum, countImages_node]
      omega
    · show (imgs.foldl mergeImageTime _).minTime = _
      rw [h3, g3, sMin, foldr_min_eq_minT _ (minT_le _), presentTimes_node, minT_append]
    · show (imgs.foldl mergeImageTime _).maxTime = _
      rw [h4, g4, sMax, foldr_max_eq_maxT, presentTimes_node, maxT_append]

theorem createSubAlbums_spec : ∀ ts : List DirTree,
    ((qualifying (createSubAlbums ts)).map Album.minTime).foldr min futureTime
      = minT (presentTimesList ts) ∧
    ((qualifying (createSubAlbums ts)).map Album.maxTime).foldr max 0
      = maxT (presentTimesList ts) ∧
    ((qualifying (createSubAlbums ts)).map Album.numImages).sum = countImagesList ts
  | [] => by
    refine ⟨?_, ?_, ?_⟩ <;> simp [qualifying, createSubAlbums, presentTimesList_nil,
      minT_nil, maxT_nil]
    rfl
  | t :: ts => by
    obtain ⟨a1, a2, a3, a4⟩ := createAlbum_spec t
    obtain ⟨i1, i2, i3⟩ := createSubAlbums_spec ts
    rw [createSubAlbums_cons, presentTimesList_cons, countImagesList_cons]
    by_cases h : 0 < (createAlbum t).1.numImages
    · have hq : qualifying ((createAlbum t).1 :: createSubAlbums ts)
          = (createAlbum t).1 :: qualifying (createSubAlbums ts) := by
        simp [qualifying, h]
      rw [hq, List.map_cons, List.map_cons, List.map_cons,
        List.foldr_cons, List.foldr_cons, List.sum_cons, i1, i2, i3, a2, a3, a4,
        minT_append, maxT_append]
      refine ⟨?_, ?_, rfl⟩
      · have hb := minT_le (presentTimesList ts)
        omega
      · omega
    · have hc : countImages t = 0 := by omega
      have hp : presentTimes t = [] := presentTimes_nil_of_count t hc
      have hq : qualifying ((createAlbum t).1 :: createSubAlbums ts)
          = qualifying (createSubAlbums ts) := by
        simp [qualifying, h]
      rw [hq, hp, i1, i2, i3, hc]
      simp

end

theorem minT_perm {l1 l2 : List Nat} (p : l1.Perm l2) : minT l1 = minT l2 := by
  induction p with
  | nil => rfl
  | cons x _ ih => rw [minT_cons, minT_cons, ih]
  | swap x y l => rw [minT_cons, minT_cons, minT_cons, minT_cons]; omega
  | trans _ _ ih1 ih2 => exact ih1.trans ih2

theorem maxT_perm {l1 l2 : List Nat} (p : l1.Perm l2) : maxT l1 = maxT l2 := by
  induction p with
  | nil => rfl
  | cons x _ ih => rw [maxT_cons, maxT_cons, ih]
  | swap x y l => rw [maxT_cons, maxT_cons, maxT_cons, maxT_cons]; omega
  | trans _ _ ih1 ih2 => exact ih1.trans ih2

theorem schedEquiv_node {n1 n2 : String} {i1 i2 : List Image}
    {s1 s2 : List DirTree} :
    schedEquiv (.node n1 i1 s1) (.node n2 i2 s2) ↔
      n1 = n2 ∧ i1.Perm i2 ∧ schedEquivList s1 s2 := Iff.rfl

theorem schedEquivList_cons {t t' : DirTree} {ts ts' : List DirTree} :
    schedEquivList (t :: ts) (t' :: ts') ↔
      schedEquiv t t' ∧ schedEquivList ts ts' := Iff.rfl

mutual

theorem schedEquiv_spec : ∀ t t' : DirTree, schedEquiv t t' →
    countImages t = countImages t' ∧
    (presentTimes t).Perm (presentTimes t') ∧
    (createAlbum t).1 = (createAlbum t').1
  | .node n1 i1 s1, .node n2 i2 s2 => by
    intro h
    rw [schedEquiv_node] at h
    obtain ⟨hn, hp, hs⟩ := h
    obtain ⟨hc, hpt, _⟩ := schedEquivList_spec s1 s2 hs
    have hcount : countImages (.node n1 i1 s1) = countImages (.node n2 i2 s2) := by
      rw [countImages_node, countImages_node, hp.length_eq, hc]
    have hptimes : (presentTimes (.node n1 i1 s1)).Perm (presentTimes (.node n2 i2 s2)) := by
      rw [presentTimes_node, presentTimes_node]
      exact ((hp.map Image.dateTime).filter _).append hpt
    refine ⟨hcount, hptimes, ?_⟩
    obtain ⟨b1, b2, b3, b4⟩ := createAlbum_spec (.node n1 i1 s1)
    obtain ⟨c1, c2, c3, c4⟩ := createAlbum_spec (.node n2 i2 s2)
    apply Album.ext
    · rw [b1, c1]
      exact hn
    · rw [b2, c2]
      exact hcount
    · rw [b3, c3]
      exact minT_perm hptimes
    · rw [b4, c4]
      exact maxT_perm hptimes

theorem schedEquivList_spec : ∀ ts ts' : List DirTree, schedEquivList ts ts' →
    countImagesList ts = countImagesList ts' ∧
    (presentTimesList ts).Perm (presentTimesList ts') ∧
    createSubAlbums ts = createSubAlbums ts'
  | [], [], _ => ⟨rfl, List.Perm.refl _, rfl⟩
  | [], _ :: _, h => False.elim h
  | _ :: _, [], h => False.elim h
  | t :: ts, t' :: ts', h => by
    rw [schedEquivList_cons] at h
    obtain ⟨h1, h2⟩ := h
    obtain ⟨d1, d2, d3⟩ := schedEquiv_spec t t' h1
    obtain ⟨e1, e2, e3⟩ := schedEquivList_spec ts ts' h2
    refine ⟨?_, ?_, ?_⟩
    · rw [countImagesList_cons, countImagesList_cons, d1, e1]
    · rw [presentTimesList_cons, presentTimesList_cons]
      exact d2.append e2
    · rw [createSubAlbums_cons, createSubAlbums_cons, d3, e3]

end

theorem renderDocsList_cons (t : DirTree) (ts : List DirTree) :
    renderDocsList (t :: ts) = renderDocs t ++ renderDocsList ts := rfl

theorem renderDocs_node (n : String) (imgs : List Image) (subs : List DirTree) :
    renderDocs (.node n imgs subs) =
      renderDocsList subs ++ [createAlbum (.node n imgs subs)] := rfl

theorem namesOk_node {n : String} {imgs : List Image} {subs : List DirTree} :
    namesOk (.node n imgs subs) = (distinctNames imgs && namesOkList subs) := rfl

theorem namesOkList_cons {t : DirTree} {ts : List DirTree} :
    namesOkList (t :: ts) = (namesOk t && namesOkList ts) := rfl

mutual

theorem renderDocs_eq : ∀ t t' : DirTree, schedEquiv t t' → namesOk t = true →
    renderDocs t = renderDocs t'
  | .node n1 i1 s1, .node n2 i2 s2 => by
    intro h hok
    rw [schedEquiv_node] at h
    obtain ⟨hname, hperm, hsubs⟩ := h
    rw [namesOk_node, Bool.and_eq_true] at hok
    obtain ⟨q1, q2, q3⟩ := schedEquivList_spec s1 s2 hsubs
    rw [renderDocs_node, renderDocs_node,
      renderDocsList_eq_all s1 s2 hsubs hok.2]
    congr 1
    have halb : (createAlbum (.node n1 i1 s1)).1 = (createAlbum (.node n2 i2 s2)).1 :=
      (schedEquiv_spec (.node n1 i1 s1) (.node n2 i2 s2)
        (schedEquiv_node.mpr ⟨hname, hperm, hsubs⟩)).2.2
    have hsubl : (createAlbum (.node n1 i1 s1)).2.1 = (createAlbum (.node n2 i2 s2)).2.1 := by
      rw [createAlbum_subList, createAlbum_subList,
        (merged_spec n1 s1).2.2.2.2, (merged_spec n2 s2).2.2.2.2, q3]
    have himgl : (createAlbum (.node n1 i1 s1)).2.2 = (createAlbum (.node n2 i2 s2)).2.2 := by
      rw [createAlbum_imgList, createAlbum_imgList]
      exact sortImages_eq_of_perm hperm hok.1
    have hpair : createAlbum (.node n1 i1 s1) = createAlbum (.node n2 i2 s2) := by
      rw [Prod.ext_iff]
      refine ⟨halb, ?_⟩
      rw [Prod.ext_iff]
      exact ⟨hsubl, himgl⟩
    rw [hpair]

theorem renderDocsList_eq_all : ∀ ts ts' : List DirTree,
    schedEquivList ts ts' → namesOkList ts = true →
    renderDocsList ts = renderDocsList ts'
  | [], [], _, _ => rfl
  | [], _ :: _, h, _ => False.elim h
  | _ :: _, [], h, _ => False.elim h
  | t :: ts, t' :: ts', h, hok => by
    rw [schedEquivList_cons] at h
    rw [namesOkList_cons, Bool.and_eq_true] at hok
    rw [renderDocsList_cons, renderDocsList_cons,
      renderDocs_eq t t' h.1 hok.1, renderDocsList_eq_all ts ts' h.2 hok.2]

end

mutual

theorem presentTimes_pos : ∀ (t : DirTree) (x : Nat), x ∈ presentTimes t → x ≠ 0
  | .node n imgs subs, x => by
    intro hx
    rw [presentTimes_node] at hx
    rcases List.mem_append.mp hx with h | h
    · have := List.of_mem_filter h
      simpa using this
    · exact presentTimesList_pos subs x h

theorem presentTimesList_pos : ∀ (ts : List DirTree) (x : Nat),
    x ∈ presentTimesList ts → x ≠ 0
  | [], x => fun hx => absurd hx (List.not_mem_nil x)
  | t :: ts, x => by
    intro hx
    rw [presentTimesList_cons] at hx
    rcases List.mem_append.mp hx with h | h
    · exact presentTimes_pos t x h
    · exact presentTimesList_pos ts x h

end

/-- A dated image (capture time present) used in concrete checks. -/
def imgDated : Image := ⟨"a.jpg", ⟨"a_thumbnail.jpg", 3, 2⟩, 5⟩

/-- An undated image (absent capture time, kept at the zero sentinel). -/
def imgUndated : Image := ⟨"b.jpg", ⟨"b_thumbnail.jpg", 3, 2⟩, 0⟩

/-- A one-image input tree used in concrete checks. -/
def oneImageTree : DirTree := .node "root" [imgDated] []

/-- C1 (counterexample): sorting the directory {a.jpg dated at 5, b.jpg undated}
places the undated image FIRST, refuting "images whose capture time is absent
placed after all images with a present capture time": the absent capture time
is the zero sentinel, which `DateTime.Compare` orders before every present time. -/
theorem c1_counterexample :
    sortImages [imgDated, imgUndated] = [imgUndated, imgDated] ∧
    imgUndated.dateTime = 0 ∧ imgDated.dateTime ≠ 0 := by
  refine ⟨?_, rfl, by decide⟩
  apply sortImages_eq_of_sorted
  · exact List.Perm.swap imgUndated imgDated []
  · refine List.pairwise_cons.mpr ⟨?_, List.pairwise_singleton _ _⟩
    intro b hb
    rw [List.mem_singleton] at hb
    subst hb
    rw [imageLE_iff]
    left
    decide
  · decide

/-- C1 (amended, proved): the image list rendered into the index document is the
directory's images sorted ascending by the pair (captureTime, name); because an
absent capture time is encoded as the zero time, images with an absent capture
time are placed BEFORE all images with a present capture time (not after), with
names ascending as tie-break for equal or equally-absent times. -/
theorem c1_image_order (dname : String) (imgs : List Image) (subs : List DirTree) :
    (createAlbum (.node dname imgs subs)).2.2 = sortImages imgs ∧
    ((createAlbum (.node dname imgs subs)).2.2).Perm imgs ∧
    ((createAlbum (.node dname imgs subs)).2.2).Pairwise imageLE ∧
    ((createAlbum (.node dname imgs subs)).2.2).Pairwise
      (fun a b => b.dateTime = 0 → a.dateTime = 0) := by
  rw [createAlbum_imgList]
  refine ⟨rfl, sortImages_perm imgs, sortImages_sorted imgs, ?_⟩
  refine (sortImages_sorted imgs).imp ?_
  intro a b hab
  intro hb0
  rw [imageLE_iff] at hab
  rcases hab with h | ⟨h, _⟩
  · omega
  · omega

/-- C3 (confirmed): the final album's minTime/maxTime are the true minimum and
maximum over all present capture timestamps of the subtree — they bound every
present timestamp and (when any exists, all below the sentinel) are themselves
present timestamps of the subtree; with no present timestamps both bounds stay
the absent sentinels; the result is invariant under the scheduler's delivery
order; and merging a subalbum whose bounds are absent never narrows the running
bounds. -/
theorem c3_bounds_correct (t : DirTree) :
    (presentTimes t = [] →
      (createAlbum t).1.minTime = futureTime ∧ (createAlbum t).1.maxTime = pastTime) ∧
    (∀ x ∈ presentTimes t,
      (createAlbum t).1.minTime ≤ x ∧ x ≤ (createAlbum t).1.maxTime) ∧
    (presentTimes t ≠ [] → (∀ x ∈ presentTimes t, x < futureTime) →
      (createAlbum t).1.minTime ∈ presentTimes t ∧
      (createAlbum t).1.maxTime ∈ presentTimes t) ∧
    (∀ t', schedEquiv t t' →
      (createAlbum t').1.minTime = (createAlbum t).1.minTime ∧
      (createAlbum t').1.maxTime = (createAlbum t).1.maxTime) ∧
    (∀ (res : Album) (L : List Album) (sub : Album),
      res.minTime ≤ futureTime → sub.minTime = futureTime → sub.maxTime = pastTime →
      (mergeSubAlbum (res, L) sub).1.minTime = res.minTime ∧
      (mergeSubAlbum (res, L) sub).1.maxTime = res.maxTime) := by
  obtain ⟨_, _, hmin, hmax⟩ := createAlbum_spec t
  refine ⟨?_, ?_, ?_, ?_, ?_⟩
  · intro h
    rw [hmin, hmax, h, minT_nil, maxT_nil]
    exact ⟨rfl, rfl⟩
  · intro x hx
    rw [hmin, hmax]
    exact ⟨minT_le_of_mem hx, le_maxT_of_mem hx⟩
  · intro hne hlt
    rw [hmin, hmax]
    constructor
    · apply minT_mem_of_ne
      obtain ⟨x, hx⟩ := List.exists_mem_of_ne_nil _ hne
      have h1 := minT_le_of_mem hx
      have h2 := hlt x hx
      omega
    · apply maxT_mem_of_ne
      obtain ⟨x, hx⟩ := List.exists_mem_of_ne_nil _ hne
      have h1 := le_maxT_of_mem hx
      have h2 := presentTimes_pos t x hx
      omega
  · intro t' ht
    obtain ⟨_, _, halb⟩ := schedEquiv_spec t t' ht
    rw [halb]
    exact ⟨rfl, rfl⟩
  · intro res L sub hres hmin0 hmax0
    by_cases h : 0 < sub.numImages
    · obtain ⟨_, _, f3, f4, _⟩ := mergeSubAlbum_fields (res, L) sub h
      rw [f3, f4, hmin0, hmax0]
      constructor
      · show min res.minTime futureTime = res.minTime
        omega
      · show max res.maxTime 0 = res.maxTime
        omega
    · rw [mergeSubAlbum_skip h]
      exact ⟨rfl, rfl⟩

/-- C3 (witness): on the concrete one-image tree the hypotheses hold and the
bounds are members of the subtree's present times. -/
theorem c3_witness :
    (createAlbum oneImageTree).1.minTime ∈ presentTimes oneImageTree ∧
    (createAlbum oneImageTree).1.maxTime ∈ presentTimes oneImageTree :=
  (c3_bounds_correct oneImageTree).2.2.1 (by decide) (by decide)

/-- C4 (confirmed): an album's numImages equals the number of its direct
qualifying images plus the sum of numImages over the (non-empty) subalbums it
keeps and renders. -/
theorem c4_count_conservation (dname : String) (imgs : List Image) (subs : List DirTree) :
    (createAlbum (.node dname imgs subs)).1.numImages =
      imgs.length + (((createAlbum (.node dname imgs subs)).2.1).map Album.numImages).sum := by
  obtain ⟨g1, g2, g3, g4, g5⟩ := merged_spec dname subs
  obtain ⟨h1, h2, h3, h4⟩ := foldl_mergeImageTime imgs
    ((createSubAlbums subs).foldl mergeSubAlbum (⟨dname, 0, futureTime, pastTime⟩, [])).1
  rw [createAlbum_subList, g5]
  have hsum : ((sortAlbums (qualifying (createSubAlbums subs))).map Album.numImages).sum
      = ((qualifying (createSubAlbums subs)).map Album.numImages).sum :=
    ((sortAlbums_perm _).map Album.numImages).sum_eq
  rw [hsum]
  show (imgs.foldl mergeImageTime _).numImages + imgs.length = _
  rw [h2, g2]
  omega

/-- C5 (confirmed): if numImages = 0 both time bounds are the absent sentinels
(`FutureTime` and the zero time); if numImages > 0 and both bounds are present
(neither the zero time nor `FutureTime`), then minTime ≤ maxTime. -/
theorem c5_album_invariant (t : DirTree) :
    ((createAlbum t).1.numImages = 0 →
      (createAlbum t).1.minTime = futureTime ∧ (createAlbum t).1.maxTime = pastTime) ∧
    (0 < (createAlbum t).1.numImages →
      (createAlbum t).1.minTime ≠ futureTime → (createAlbum t).1.minTime ≠ 0 →
      (createAlbum t).1.maxTime ≠ futureTime → (createAlbum t).1.maxTime ≠ 0 →
      (createAlbum t).1.minTime ≤ (createAlbum t).1.maxTime) := by
  obtain ⟨_, hc, hmin, hmax⟩ := createAlbum_spec t
  constructor
  · intro h0
    have hz : countImages t = 0 := by omega
    rw [hmin, hmax, presentTimes_nil_of_count t hz, minT_nil, maxT_nil]
    exact ⟨rfl, rfl⟩
  · intro _ hminF _ _ _
    rw [hmin] at hminF ⊢
    rw [hmax]
    exact le_maxT_of_mem (minT_mem_of_ne hminF)

/-- C5 (witness): concrete check on the one-image tree. -/
theorem c5_witness :
    (createAlbum oneImageTree).1.minTime ≤ (createAlbum oneImageTree).1.maxTime :=
  (c5_album_invariant oneImageTree).2 (by decide) (by decide) (by decide)
    (by decide) (by decide)

/-- C6 (confirmed): two runs of the build on the same input tree — same
directories and processed image records, with each directory's records possibly
delivered by the scheduler in a different order, and image names within each
directory distinct — render every index document with identical subalbum and
image order. -/
theorem c6_deterministic_order (t t' : DirTree) (h : schedEquiv t t')
    (hok : namesOk t = true) : renderDocs t = renderDocs t' :=
  renderDocs_eq t t' h hok

/-- A run of the build on a root with two images and one subdirectory. -/
def c6TreeA : DirTree := .node "root" [imgDated, imgUndated] [.node "sub" [imgDated] []]

/-- The same input tree with the root's image results delivered in the other
order. -/
def c6TreeB : DirTree := .node "root" [imgUndated, imgDated] [.node "sub" [imgDated] []]

/-- C6 (witness): the two concrete delivery orders render identically. -/
theorem c6_witness : renderDocs c6TreeA = renderDocs c6TreeB :=
  c6_deterministic_order c6TreeA c6TreeB
    (schedEquiv_node.mpr ⟨rfl, List.Perm.swap imgUndated imgDated [],
      schedEquivList_cons.mpr ⟨schedEquiv_node.mpr ⟨rfl, List.Perm.refl _, by exact trivial⟩,
        by exact trivial⟩⟩)
    (by decide)

/-- C7 (confirmed): when the image bytes read successfully and EXIF extraction
fails, `processImage` logs the warning, leaves the capture time absent (zero),
and still produces the thumbnail, the copy, and the Image record on the
channel — the run does not abort. -/
theorem c7_exif_nonfatal (e imageName : String) (th : Thumbnail) :
    processImage ⟨true, Except.error e, Except.ok th, true⟩ imageName =
      (Except.ok { name := imageName, thumbnail := th, dateTime := 0 },
       ["Problem reading EXIF date-time for " ++ imageName ++ ": " ++ e]) := rfl

/-- C8 (counterexample): for an absent timestamp the "unknown date" marker of
`dateToString` is NOT distinct from the "unknown" marker of `timeToString`:
at the absent input both return the very same string. -/
theorem c8_counterexample : dateToString 0 = timeToString 0 := by decide

/-- C8 (amended, proved): for an absent timestamp (either absent sentinel:
the zero time or `FutureTime`), `dateToString` returns the unknown-date marker
`UnknownDateString` = `"???"`, which is the SAME string as the unknown marker
returned by `timeToString`, not a distinct one. -/
theorem c8_markers :
    dateToString 0 = UnknownDateString ∧ timeToString 0 = UnknownDateString ∧
    dateToString futureTime = UnknownDateString ∧
    timeToString futureTime = UnknownDateString := by
  refine ⟨?_, ?_, ?_, ?_⟩ <;> decide

/-- C9 (confirmed): an EXIF extraction that succeeds with exactly the zero
timestamp yields the very same Image record as a failed extraction (so sorting
and rendering treat it identically), the zero capture time displays as the
unknown-date marker, and the bounds merge skips it. -/
theorem c9_zero_time_indistinguishable (readOk copyOk : Bool)
    (th : Except String Thumbnail) (e imageName nm : String) (a : Album)
    (t2 : Thumbnail) :
    (processImage ⟨readOk, Except.ok 0, th, copyOk⟩ imageName).1 =
      (processImage ⟨readOk, Except.error e, th, copyOk⟩ imageName).1 ∧
    dateToString 0 = UnknownDateString ∧
    mergeImageTime a ⟨nm, t2, 0⟩ = a := by
  refine ⟨?_, by decide, mergeImageTime_zero rfl⟩
  unfold processImage
  cases readOk
  · rfl
  · cases th
    · rfl
    · cases copyOk
      · rfl
      · rfl

/-- C10 (confirmed): the file name "jpg" is accepted by the image filter (the
suffix match needs no dot), yet contains no '.', so the "impossible"
no-extension `log.Fatalf` branch of `createThumbnail` is reachable under the
caller's filtering precondition. -/
theorem c10_fatal_reachable :
    isImageFile "jpg" = true ∧ createThumbnailNoExtension "jpg" = true := by
  constructor <;> decide

/-- The failing input of C2: a tree whose subdirectory `sub` contains no images
anywhere in its subtree. -/
def c2Tree : DirTree := .node "root" [imgDated] [.node "sub" [] []]

/-- The initial output state of C2: only the output root `out` exists. -/
def c2FS : FS := ⟨[["out"], []]⟩

/-- C2 (code_bug): on an input with an empty subdirectory the run does NOT
complete normally: the empty directory's output dir is never created
(`os.MkdirAll` is guarded by the presence of direct images), yet `writeHtml`
still runs for it and its `os.WriteFile` of `out/sub/index.html` fails,
aborting the whole run with `os.Exit(1)`. -/
theorem c2_empty_subtree_aborts :
    createAlbumRun c2Tree ["out"] c2FS = Except.error "Couldn't write index.html" := by
  rfl
